import Mathlib

/-!
# Comb: the Message data-movement core

A shallow embedding of `include/Message.hpp` (struct `detail::MessageBase` and
the specialisation `Message<mpi_pol>`; the `mock_pol` and `gpump_pol`
specialisations repeat the same generic bodies) and of the range flattening of
`include/pol_cuda_persistent.hpp`.

Modelling conventions

* A `DataT*` is an element address into a memory of `DataT` values
  (`Mem V`, with `V` standing for `DataT`); pointer arithmetic `buf += len`
  is addition of element counts.  `nullptr` is address 0.
* A `LidxT*` is an address into a separate memory of indices (`IdxMem`):
  stores through a `DataT*` never alter an index array.
* `IdxT` and `LidxT` values are element counts and positions, taken in `Nat`;
  `sizeof(DataT)` is the parameter `sizeof_DataT`.  The widths of `IdxT`, `LidxT`
  and `DataT` are fixed in `config.hpp`, which is not among the sources, so
  arithmetic is exact: no wrap-around is modelled.
* The transport's structured pack and unpack are a parameter (`MPI V`); the
  helpers of `for_all.hpp` and `utils.hpp` that the generic pack and unpack
  call are modelled from the specification.
* Calls made to external collaborators (the buffer allocator, the allocators
  of the index arrays, the transport) are returned as a list of `Call`s.
* A failed `assert` is the result `none`.
-/

namespace Comb

/-- Element address of a `DataT` or `LidxT` object; 0 is the null pointer.  In proofs,
`simp only [Ptr] at *` exposes the underlying `Nat` to `omega`. -/
abbrev Ptr := Nat

/-- The null pointer. -/
abbrev nullptr : Ptr := 0

/-- Memory of `DataT` values, addressed by element. -/
abbrev Mem (V : Type) := Nat → V

/-- Memory of `LidxT` values (the index arrays), addressed by element. -/
abbrev IdxMem := Nat → Nat

/-- Transport type handles: the three named constants that `Message.hpp` uses and
the handles of committed user types. -/
inductive MPI_Datatype
  | MPI_DATATYPE_NULL
  | MPI_BYTE
  | MPI_PACKED
  | handle (h : Nat)
  deriving DecidableEq, Repr

open MPI_Datatype

/-- Calls that leave the Message: `buf_aloc.allocate(n)`, `buf_aloc.deallocate(p)`,
`i->aloc.deallocate(i->indices)`, `detail::MPI::Type_free(&i->mpi_type)`,
`start_send(..)` and `start_recv(..)`. -/
inductive Call
  | allocate (nbytes : Nat)
  | deallocate (ptr : Ptr)
  | item_deallocate (aloc : Nat) (ptr : Ptr)
  | Type_free (mpi_type : MPI_Datatype)
  | start_send (ptr : Ptr) (count : Nat) (datatype : MPI_Datatype) (partner_rank tag : Int)
  | start_recv (ptr : Ptr) (count : Nat) (datatype : MPI_Datatype) (partner_rank tag : Int)
  deriving DecidableEq, Repr

/-- The struct `MessageBase::list_item_type`; `aloc` identifies the allocator that
the reference member refers to. -/
structure list_item_type where
  data : Ptr
  indices : Ptr
  aloc : Nat
  size : Nat
  mpi_type : MPI_Datatype
  mpi_pack_max_nbytes : Nat
  deriving DecidableEq, Repr

/-- The struct `detail::MessageBase`. -/
structure MessageBase where
  m_partner_rank : Int
  m_msg_tag : Int
  m_buf : Ptr
  m_size : Nat
  m_max_nbytes : Nat
  m_nbytes : Nat
  m_have_many : Bool
  items : List list_item_type
  deriving DecidableEq, Repr

/-- The execution context an operation is called with: the overloads taking
`ExecContext<mpi_type_pol>` are selected for `mpi_type_pol`, the templates for every
other context. -/
inductive ExecContext
  | generic
  | mpi_type_pol
  deriving DecidableEq, Repr

/-- The constructor `MessageBase(partner_rank, tag, have_many)`.  Its initialiser list
sets `m_buf`, `m_max_nbytes` and `m_nbytes` and has no entry for `m_size`, whose initial
value is therefore whatever the storage holds: the argument `indeterminate`. -/
def MessageBase.ctor (partner_rank tag : Int) (have_many : Bool) (indeterminate : Nat) :
    MessageBase :=
  { m_partner_rank := partner_rank
    m_msg_tag := tag
    m_buf := nullptr
    m_size := indeterminate
    m_max_nbytes := 0
    m_nbytes := 0
    m_have_many := have_many
    items := [] }

namespace MessageBase

/-- Accessor `partner_rank()`. -/
def partner_rank (m : MessageBase) : Int := m.m_partner_rank

/-- Accessor `tag()`. -/
def tag (m : MessageBase) : Int := m.m_msg_tag

/-- Accessor `buffer()`. -/
def buffer (m : MessageBase) : Ptr := m.m_buf

/-- Accessor `size()`. -/
def size (m : MessageBase) : Nat := m.m_size

/-- Accessor `max_nbytes()`. -/
def max_nbytes (m : MessageBase) : Nat := m.m_max_nbytes

/-- Accessor `nbytes()`. -/
def nbytes (m : MessageBase) : Nat := m.m_nbytes

/-- Accessor `have_many()`. -/
def have_many (m : MessageBase) : Bool := m.m_have_many

/-- The method `add(data, indices, aloc, size, mpi_type, mpi_pack_max_nbytes)`. -/
def add (sizeof_DataT : Nat) (m : MessageBase) (data indices : Ptr) (aloc : Nat) (size : Nat)
    (mpi_type : MPI_Datatype) (mpi_pack_max_nbytes : Nat) : MessageBase :=
  let items := m.items ++ [⟨data, indices, aloc, size, mpi_type, mpi_pack_max_nbytes⟩]
  if mpi_type ≠ MPI_DATATYPE_NULL then
    { m with
      items := items
      m_max_nbytes := m.m_max_nbytes + mpi_pack_max_nbytes
      m_nbytes := m.m_nbytes + mpi_pack_max_nbytes
      m_size := m.m_size + size }
  else
    { m with
      items := items
      m_max_nbytes := m.m_max_nbytes + sizeof_DataT * size
      m_nbytes := m.m_nbytes + sizeof_DataT * size
      m_size := m.m_size + size }

/-- The loop of `destroy()`: the releases made for each item, in list order. -/
def destroy_loop : List list_item_type → List Call
  | [] => []
  | i :: rest =>
    (if i.indices ≠ nullptr then [Call.item_deallocate i.aloc i.indices] else []) ++
    (if i.mpi_type ≠ MPI_DATATYPE_NULL then [Call.Type_free i.mpi_type] else []) ++
    destroy_loop rest

/-- The method `destroy()`: releases, then `items.clear()`. -/
def destroy (m : MessageBase) : MessageBase × List Call :=
  ({ m with items := [] }, destroy_loop m.items)

end MessageBase

/-- Modelled from the spec: `for_all(con, begin, end, body)` of `for_all.hpp`, which is
not among the sources.  The body is run once for each index of `[begin, end)`; the
iterations are taken in increasing order. -/
def for_all {V : Type} (begin_ end_ : Nat) (body : Nat → Mem V → Mem V) (mem : Mem V) : Mem V :=
  (List.range' begin_ (end_ - begin_)).foldl (fun acc i => body i acc) mem

/-- Modelled from the spec: `detail::indexer_idx` of `utils.hpp`, which is not among the
sources: the direct indexer, position `i` is element `i`. -/
def indexer_idx (i : Nat) : Nat := i

/-- Modelled from the spec: `detail::indexer_list_idx{indices}` of `utils.hpp`, which is
not among the sources: the indirect indexer, position `i` is element `indices[i]`; "null
means contiguous region". -/
def indexer_list_idx (imem : IdxMem) (indices : Ptr) (i : Nat) : Nat :=
  if indices = nullptr then i else imem (indices + i)

/-- Modelled from the spec: `make_copy_idxr_idxr(src, idxr_src, dst, idxr_dst)` of
`utils.hpp`, which is not among the sources: the loop body
`dst[idxr_dst(i)] = src[idxr_src(i)]`. -/
def make_copy_idxr_idxr {V : Type} (src : Ptr) (idxr_src : Nat → Nat) (dst : Ptr)
    (idxr_dst : Nat → Nat) (i : Nat) (mem : Mem V) : Mem V :=
  Function.update mem (dst + idxr_dst i) (mem (src + idxr_src i))

/-- The transport's structured pack and unpack primitives, `detail::MPI::Pack` and
`detail::MPI::Unpack`, which the Message consumes: each takes the memory and the running
position and returns the new position and the memory. -/
structure MPI (V : Type) where
  Pack : (inbuf : Ptr) → (incount : Nat) → (datatype : MPI_Datatype) → (outbuf : Ptr) →
    (outsize : Nat) → (position : Nat) → Mem V → Nat × Mem V
  Unpack : (inbuf : Ptr) → (insize : Nat) → (position : Nat) → (outbuf : Ptr) →
    (outcount : Nat) → (datatype : MPI_Datatype) → Mem V → Nat × Mem V

namespace Message

/-- The item loop of the generic `pack`: `buf` is the write cursor. -/
def pack_loop {V : Type} (imem : IdxMem) : List list_item_type → Ptr → Mem V → Mem V
  | [], _, mem => mem
  | i :: rest, buf, mem =>
    let src := i.data
    let indices := i.indices
    let len := i.size
    pack_loop imem rest (buf + len)
      (for_all 0 len (make_copy_idxr_idxr src (indexer_list_idx imem indices) buf indexer_idx) mem)

/-- The template `Message<mpi_pol>::pack(context const&, communicator)`. -/
def pack {V : Type} (imem : IdxMem) (m : MessageBase) (mem : Mem V) : Option (Mem V) :=
  let buf := m.m_buf
  if buf = nullptr then none
  else some (pack_loop imem m.items buf mem)

/-- The item loop of the native-typed `pack`: `pos` is the running byte position. -/
def pack_mpi_type_loop {V : Type} (mpi : MPI V) (buf : Ptr) (buf_max_nbytes : Nat) :
    List list_item_type → Nat → Mem V → Nat × Mem V
  | [], pos, mem => (pos, mem)
  | i :: rest, pos, mem =>
    let r := mpi.Pack i.data 1 i.mpi_type buf buf_max_nbytes pos mem
    pack_mpi_type_loop mpi buf buf_max_nbytes rest r.1 r.2

/-- The overload `Message<mpi_pol>::pack(ExecContext<mpi_type_pol> const&, communicator)`. -/
def pack_mpi_type {V : Type} (mpi : MPI V) (sizeof_DataT : Nat) (m : MessageBase)
    (mem : Mem V) : Option (MessageBase × Mem V) :=
  match m.items with
  | [front] => some ({ m with m_nbytes := sizeof_DataT * front.size }, mem)
  | items =>
    let buf := m.m_buf
    if buf = nullptr then none
    else
      let r := pack_mpi_type_loop mpi buf m.max_nbytes items 0 mem
      some ({ m with m_nbytes := r.1 }, r.2)

/-- The item loop of the generic `unpack`: `buf` is the read cursor. -/
def unpack_loop {V : Type} (imem : IdxMem) : List list_item_type → Ptr → Mem V → Mem V
  | [], _, mem => mem
  | i :: rest, buf, mem =>
    let dst := i.data
    let indices := i.indices
    let len := i.size
    unpack_loop imem rest (buf + len)
      (for_all 0 len (make_copy_idxr_idxr buf indexer_idx dst (indexer_list_idx imem indices)) mem)

/-- The template `Message<mpi_pol>::unpack(context const&, communicator)`. -/
def unpack {V : Type} (imem : IdxMem) (m : MessageBase) (mem : Mem V) : Option (Mem V) :=
  let buf := m.m_buf
  if buf = nullptr then none
  else some (unpack_loop imem m.items buf mem)

/-- The item loop of the native-typed `unpack`. -/
def unpack_mpi_type_loop {V : Type} (mpi : MPI V) (buf : Ptr) (buf_max_nbytes : Nat) :
    List list_item_type → Nat → Mem V → Nat × Mem V
  | [], pos, mem => (pos, mem)
  | i :: rest, pos, mem =>
    let r := mpi.Unpack buf buf_max_nbytes pos i.data 1 i.mpi_type mem
    unpack_mpi_type_loop mpi buf buf_max_nbytes rest r.1 r.2

/-- The overload `Message<mpi_pol>::unpack(ExecContext<mpi_type_pol> const&, communicator)`. -/
def unpack_mpi_type {V : Type} (mpi : MPI V) (m : MessageBase) (mem : Mem V) :
    Option (MessageBase × Mem V) :=
  match m.items with
  | [_] => some (m, mem)
  | items =>
    let buf := m.m_buf
    if buf = nullptr then none
    else some (m, (unpack_mpi_type_loop mpi buf m.max_nbytes items 0 mem).2)

/-- The template `Message<mpi_pol>::Isend(context const&, ..)`. -/
def Isend (m : MessageBase) : List Call :=
  [Call.start_send m.buffer m.nbytes MPI_BYTE m.partner_rank m.tag]

/-- The overload `Message<mpi_pol>::Isend(ExecContext<mpi_type_pol> const&, ..)`. -/
def Isend_mpi_type (m : MessageBase) : List Call :=
  match m.items with
  | [front] => [Call.start_send front.data 1 front.mpi_type m.partner_rank m.tag]
  | _ => [Call.start_send m.buffer m.nbytes MPI_PACKED m.partner_rank m.tag]

/-- The template `Message<mpi_pol>::Irecv(context const&, ..)`. -/
def Irecv (m : MessageBase) : List Call :=
  [Call.start_recv m.buffer m.nbytes MPI_BYTE m.partner_rank m.tag]

/-- The overload `Message<mpi_pol>::Irecv(ExecContext<mpi_type_pol> const&, ..)`. -/
def Irecv_mpi_type (m : MessageBase) : List Call :=
  match m.items with
  | [front] => [Call.start_recv front.data 1 front.mpi_type m.partner_rank m.tag]
  | _ => [Call.start_recv m.buffer m.max_nbytes MPI_PACKED m.partner_rank m.tag]

/-- The template `Message<mpi_pol>::allocate(context const&, comm, buf_aloc)`;
`buf_aloc n` is the pointer that `buf_aloc.allocate(n)` returns at this call. -/
def allocate (m : MessageBase) (buf_aloc : Nat → Ptr) : MessageBase × List Call :=
  if m.m_buf = nullptr then
    ({ m with m_buf := buf_aloc m.nbytes }, [Call.allocate m.nbytes])
  else (m, [])

/-- The overload `Message<mpi_pol>::allocate(ExecContext<mpi_type_pol> const&, comm, buf_aloc)`. -/
def allocate_mpi_type (m : MessageBase) (buf_aloc : Nat → Ptr) : MessageBase × List Call :=
  if m.m_buf = nullptr then
    match m.items with
    | [_] => (m, [])
    | _ => ({ m with m_buf := buf_aloc m.max_nbytes }, [Call.allocate m.max_nbytes])
  else (m, [])

/-- Overload resolution for `allocate`: the overload for `ExecContext<mpi_type_pol>`, the
template for every other context. -/
def allocate_in (con : ExecContext) (m : MessageBase) (buf_aloc : Nat → Ptr) :
    MessageBase × List Call :=
  match con with
  | ExecContext.generic => allocate m buf_aloc
  | ExecContext.mpi_type_pol => allocate_mpi_type m buf_aloc

/-- The template `Message<mpi_pol>::deallocate(context const&, comm, buf_aloc)`, which has
no overload for `ExecContext<mpi_type_pol>`. -/
def deallocate (m : MessageBase) : MessageBase × List Call :=
  if m.m_buf ≠ nullptr then
    ({ m with m_buf := nullptr }, [Call.deallocate m.m_buf])
  else (m, [])

end Message

/-! ## Sequences of operations -/

/-- One `add` call with the arguments held in `a`. -/
def add_item (sizeof_DataT : Nat) (m : MessageBase) (a : list_item_type) : MessageBase :=
  m.add sizeof_DataT a.data a.indices a.aloc a.size a.mpi_type a.mpi_pack_max_nbytes

/-- A sequence of `add` calls, one for each entry of `args`, in order. -/
def add_all (sizeof_DataT : Nat) (m : MessageBase) (args : List list_item_type) : MessageBase :=
  args.foldl (add_item sizeof_DataT) m

/-- The bytes that the specification attributes to one item: "`maxPackedBytes` if native
type present, else `size * elementByteWidth`". -/
def claimed_item_nbytes (sizeof_DataT : Nat) (a : list_item_type) : Nat :=
  if a.mpi_type = MPI_DATATYPE_NULL then a.size * sizeof_DataT else a.mpi_pack_max_nbytes

/-- The element offset that the specification attributes to item `k`: the sum of the
sizes of the items added before it. -/
def claimed_offset (items : List list_item_type) (k : Nat) : Nat :=
  ((items.take k).map list_item_type.size).sum

/-- An operation on a Message, with the arguments of the call. -/
inductive Op
  | add (data indices : Ptr) (aloc size : Nat) (mpi_type : MPI_Datatype)
      (mpi_pack_max_nbytes : Nat)
  | destroy
  | allocate (con : ExecContext) (buf_aloc : Nat → Ptr)
  | deallocate (con : ExecContext)
  | pack (con : ExecContext)
  | unpack (con : ExecContext)
  | Isend (con : ExecContext)
  | Irecv (con : ExecContext)

/-- A Message together with the `DataT` memory it reads and writes and the calls it has
made so far. -/
structure World (V : Type) where
  msg : MessageBase
  mem : Mem V
  calls : List Call

/-- One operation; overload resolution on the context picks the body.  The result is
`none` when an `assert` of the body fails. -/
def step {V : Type} (mpi : MPI V) (imem : IdxMem) (sizeof_DataT : Nat) (op : Op)
    (s : World V) : Option (World V) :=
  match op with
  | Op.add data indices aloc size mpi_type mpi_pack_max_nbytes =>
    some { s with
      msg := s.msg.add sizeof_DataT data indices aloc size mpi_type mpi_pack_max_nbytes }
  | Op.destroy =>
    some { s with msg := s.msg.destroy.1, calls := s.calls ++ s.msg.destroy.2 }
  | Op.allocate con buf_aloc =>
    some { s with
      msg := (Message.allocate_in con s.msg buf_aloc).1
      calls := s.calls ++ (Message.allocate_in con s.msg buf_aloc).2 }
  | Op.deallocate _ =>
    some { s with
      msg := (Message.deallocate s.msg).1
      calls := s.calls ++ (Message.deallocate s.msg).2 }
  | Op.pack ExecContext.generic =>
    (Message.pack imem s.msg s.mem).map fun mem => { s with mem := mem }
  | Op.pack ExecContext.mpi_type_pol =>
    (Message.pack_mpi_type mpi sizeof_DataT s.msg s.mem).map fun r =>
      { s with msg := r.1, mem := r.2 }
  | Op.unpack ExecContext.generic =>
    (Message.unpack imem s.msg s.mem).map fun mem => { s with mem := mem }
  | Op.unpack ExecContext.mpi_type_pol =>
    (Message.unpack_mpi_type mpi s.msg s.mem).map fun r => { s with msg := r.1, mem := r.2 }
  | Op.Isend ExecContext.generic => some { s with calls := s.calls ++ Message.Isend s.msg }
  | Op.Isend ExecContext.mpi_type_pol =>
    some { s with calls := s.calls ++ Message.Isend_mpi_type s.msg }
  | Op.Irecv ExecContext.generic => some { s with calls := s.calls ++ Message.Irecv s.msg }
  | Op.Irecv ExecContext.mpi_type_pol =>
    some { s with calls := s.calls ++ Message.Irecv_mpi_type s.msg }

/-- A sequence of operations, run in order; `none` as soon as one fails. -/
def run {V : Type} (mpi : MPI V) (imem : IdxMem) (sizeof_DataT : Nat) :
    List Op → World V → Option (World V)
  | [], s => some s
  | op :: ops, s => (step mpi imem sizeof_DataT op s).bind (run mpi imem sizeof_DataT ops)

/-- The state right after construction: the new Message, any memory, no call made. -/
def World.fresh {V : Type} (partner_rank tag : Int) (have_many : Bool) (indeterminate : Nat)
    (mem : Mem V) : World V :=
  { msg := MessageBase.ctor partner_rank tag have_many indeterminate, mem := mem, calls := [] }

/-- The operation is a `pack` under the native-typed context. -/
def Op.is_pack_mpi_type : Op → Bool
  | Op.pack ExecContext.mpi_type_pol => true
  | _ => false

/-- Every `add` of an item with a native type passes a `mpi_pack_max_nbytes` of at least
`sizeof(DataT) * size`. -/
def Op.add_covers (sizeof_DataT : Nat) : Op → Prop
  | Op.add _ _ _ size mpi_type mpi_pack_max_nbytes =>
    mpi_type ≠ MPI_DATATYPE_NULL → sizeof_DataT * size ≤ mpi_pack_max_nbytes
  | _ => True

instance Op.add_covers_decidable (sizeof_DataT : Nat) (op : Op) :
    Decidable (op.add_covers sizeof_DataT) := by
  cases op <;> simp only [Op.add_covers] <;> infer_instance

/-- The transport's contract for the structured pack: given a position inside the output
buffer it never leaves the position beyond `outsize`. -/
def MPI.Pack_within_outsize {V : Type} (mpi : MPI V) : Prop :=
  ∀ inbuf incount datatype outbuf outsize position mem, position ≤ outsize →
    (mpi.Pack inbuf incount datatype outbuf outsize position mem).1 ≤ outsize

/-- A structured pack that advances the position by 8 bytes when they fit and moves no
data; used to run the native-typed path on concrete inputs. -/
def MPI.advance8 : MPI Nat :=
  { Pack := fun _ _ _ _ outsize position mem =>
      (if position + 8 ≤ outsize then position + 8 else position, mem)
    Unpack := fun _ insize position _ _ _ mem =>
      (if position + 8 ≤ insize then position + 8 else position, mem) }

/-! ## Addresses touched by the generic pack and unpack -/

/-- The element that the generic `pack` reads, and the generic `unpack` writes, for
position `i` of an item: `data[indices[i]]`. -/
def item_addr (imem : IdxMem) (it : list_item_type) (i : Nat) : Ptr :=
  it.data + indexer_list_idx imem it.indices i

/-- The number of buffer elements that the generic `pack` of these items fills. -/
def total_size (items : List list_item_type) : Nat :=
  (items.map list_item_type.size).sum

/-- No element of the items' data lies in the buffer region `[buf, buf + total_size)`: the
application arrays and the staging buffer are separate. -/
def outside_buffer (imem : IdxMem) (items : List list_item_type) (buf : Ptr) : Prop :=
  ∀ it ∈ items, ∀ i < it.size,
    item_addr imem it i < buf ∨ buf + total_size items ≤ item_addr imem it i

/-- The items address distinct arrays: no element of one item is an element of another. -/
def distinct_arrays (imem : IdxMem) (items : List list_item_type) : Prop :=
  items.Pairwise fun a b => ∀ i < a.size, ∀ j < b.size, item_addr imem a i ≠ item_addr imem b j

/-- Item `b` has the shape of item `a`: the same size, and both carry an index array with
the same contents. -/
def same_shape (imemA imemB : IdxMem) (a b : list_item_type) : Prop :=
  a.size = b.size ∧ a.indices ≠ nullptr ∧ b.indices ≠ nullptr ∧
    ∀ i < a.size, imemB (b.indices + i) = imemA (a.indices + i)

/-- A Message with one native-typed item of 10 elements, as `add` leaves it. -/
def single_native_item : MessageBase :=
  add_item 8 (MessageBase.ctor 3 7 false 0) ⟨1000, 2000, 0, 10, handle 1, 96⟩

/-- The Message that a sequence of `add` calls on a freshly constructed Message and a
generic `allocate` leave. -/
def built (sizeof_DataT : Nat) (partner_rank tag : Int) (have_many : Bool) (indeterminate : Nat)
    (args : List list_item_type) (buf_aloc : Nat → Ptr) : MessageBase :=
  (Message.allocate
    (add_all sizeof_DataT (MessageBase.ctor partner_rank tag have_many indeterminate) args)
    buf_aloc).1

/-- Three items of sizes 4, 8 and 4 with no native type: data at 100, 120 and 140, index
arrays at 200, 220 and 240. -/
def three_item_args : List list_item_type :=
  [⟨100, 200, 0, 4, MPI_DATATYPE_NULL, 0⟩, ⟨120, 220, 0, 8, MPI_DATATYPE_NULL, 0⟩,
    ⟨140, 240, 0, 4, MPI_DATATYPE_NULL, 0⟩]

/-- The same three items on the receiving side: data at 500, 520 and 540. -/
def three_item_dsts : List list_item_type :=
  [⟨500, 200, 0, 4, MPI_DATATYPE_NULL, 0⟩, ⟨520, 220, 0, 8, MPI_DATATYPE_NULL, 0⟩,
    ⟨540, 240, 0, 4, MPI_DATATYPE_NULL, 0⟩]

/-- The receiving side's memory: the element at address `a` holds what the sending side's
memory holds at address `a - 300` after the pack, so that the buffer at 600 holds what the
buffer at 300 holds. -/
def received_mem (imem : IdxMem) : Mem Nat :=
  fun a => Message.pack_loop imem three_item_args 300 (fun x => x) (a - 300)

/-- An index memory in which the index array at address `p` reads 0, 2, 4, 6, 0, 2, ..
when `p` is a multiple of 4: the array of 8 indices repeats each index. -/
def even_indices : IdxMem := fun p => (p % 4) * 2

/-- A Message with the three items of sizes 4, 8 and 4 and no native type, 4-byte
elements. -/
def three_items : MessageBase :=
  add_all 4 (MessageBase.ctor 3 7 true 0) three_item_args

/-- An allocator that returns the null pointer for a request of zero bytes and address
4096 otherwise. -/
def null_on_zero_aloc (nbytes : Nat) : Ptr := if nbytes = 0 then nullptr else 4096

/-- A run with no native-typed pack: two items, allocate, generic pack and unpack,
deallocate, destroy. -/
def generic_ops : List Op :=
  [Op.add 1000 2000 0 10 (handle 1) 96, Op.add 1100 2100 0 2 MPI_DATATYPE_NULL 0,
    Op.allocate ExecContext.generic (fun _ => 4096), Op.pack ExecContext.generic,
    Op.unpack ExecContext.generic, Op.deallocate ExecContext.generic, Op.destroy]

/-- One native-typed item of 10 elements whose `mpi_pack_max_nbytes` is 96, packed under
the native-typed context. -/
def single_native_pack_ops : List Op :=
  [Op.add 1000 2000 0 10 (handle 1) 96, Op.pack ExecContext.mpi_type_pol]

/-- The call is a release of an index array, `i->aloc.deallocate(i->indices)`. -/
def Call.is_item_deallocate : Call → Bool
  | Call.item_deallocate _ _ => true
  | _ => false

/-- The call is a release of a native type handle, `detail::MPI::Type_free(..)`. -/
def Call.is_Type_free : Call → Bool
  | Call.Type_free _ => true
  | _ => false

/-- The count argument of a `start_send` or `start_recv` call. -/
def Call.count : Call → Nat
  | Call.start_send _ count _ _ _ => count
  | Call.start_recv _ count _ _ _ => count
  | _ => 0

/-- Overload resolution for `Isend`. -/
def Message.Isend_in (con : ExecContext) (m : MessageBase) : List Call :=
  match con with
  | ExecContext.generic => Message.Isend m
  | ExecContext.mpi_type_pol => Message.Isend_mpi_type m

/-- Overload resolution for `Irecv`. -/
def Message.Irecv_in (con : ExecContext) (m : MessageBase) : List Call :=
  match con with
  | ExecContext.generic => Message.Irecv m
  | ExecContext.mpi_type_pol => Message.Irecv_mpi_type m

/-- The `add` operation whose arguments are held in `a`. -/
def Op.of_item (a : list_item_type) : Op :=
  Op.add a.data a.indices a.aloc a.size a.mpi_type a.mpi_pack_max_nbytes

/-- A Message with two native-typed items and a buffer at 300, partner rank 3, tag 7. -/
def two_native_items : MessageBase :=
  (Message.allocate_mpi_type
    (add_all 8 (MessageBase.ctor 3 7 true 0)
      [⟨100, 200, 1, 10, handle 1, 96⟩, ⟨120, 0, 2, 2, handle 2, 24⟩])
    (fun _ => 300)).1

/-- Two native-typed items of 10 and 2 elements, with 96 and 24 bytes reserved. -/
def two_native_args : List list_item_type :=
  [⟨100, 200, 1, 10, handle 1, 96⟩, ⟨120, 0, 2, 2, handle 2, 24⟩]

/-! ## The persistent-kernel execution context (`pol_cuda_persistent.hpp`)

The bounds are `IdxT` values; differences of machine integers do not stop at zero, so here
they are taken in `Int`. -/

/-- A linear range `[begin, end)` handed to `cuda::persistent_launch::for_all`. -/
structure Enqueued where
  begin_ : Int
  end_ : Int
  deriving DecidableEq, Repr

namespace cuda_persistent_pol

/-- The method `ExecContext<cuda_persistent_pol>::for_all(begin, end, body)`: the ranges it
hands to the engine. -/
def for_all (begin_ end_ : Int) : List Enqueued :=
  [⟨begin_, end_⟩]

end cuda_persistent_pol

/-- A Message with a direct item (null index array, 3 elements at 100) and an indirect item
(index array at 220, 4 elements at 120), no native types. -/
def direct_and_indirect : MessageBase :=
  built 4 3 7 true 0
    [⟨100, nullptr, 0, 3, MPI_DATATYPE_NULL, 0⟩, ⟨120, 220, 0, 4, MPI_DATATYPE_NULL, 0⟩]
    (fun _ => 300)

/-- The Message with the member `m_have_many` replaced by `b`. -/
def MessageBase.with_have_many (m : MessageBase) (b : Bool) : MessageBase :=
  { m with m_have_many := b }

/-- The state whose Message has the member `m_have_many` replaced by `b`. -/
def World.with_have_many {V : Type} (s : World V) (b : Bool) : World V :=
  { s with msg := s.msg.with_have_many b }

/-- A run through every operation under both contexts: two items, allocate, pack, Isend,
Irecv and unpack under the native-typed context, destroy, one item, the same again, then
the generic operations and deallocate. -/
def every_op : List Op :=
  [Op.add 100 200 1 10 (handle 1) 96, Op.add 120 0 2 2 (handle 2) 24,
    Op.allocate ExecContext.mpi_type_pol (fun _ => 300), Op.pack ExecContext.mpi_type_pol,
    Op.Isend ExecContext.mpi_type_pol, Op.Irecv ExecContext.mpi_type_pol,
    Op.unpack ExecContext.mpi_type_pol, Op.destroy,
    Op.add 100 200 1 10 (handle 1) 96, Op.pack ExecContext.mpi_type_pol,
    Op.Isend ExecContext.mpi_type_pol, Op.Irecv ExecContext.mpi_type_pol,
    Op.unpack ExecContext.mpi_type_pol, Op.allocate ExecContext.generic (fun _ => 300),
    Op.pack ExecContext.generic, Op.Isend ExecContext.generic, Op.Irecv ExecContext.generic,
    Op.unpack ExecContext.generic, Op.deallocate ExecContext.generic]

end Comb

namespace Comb

open MPI_Datatype

/-! ## Counters after a sequence of `add` calls -/

theorem add_item_fields (w : Nat) (m : MessageBase) (a : list_item_type) :
    (add_item w m a).m_max_nbytes = m.m_max_nbytes + claimed_item_nbytes w a ∧
    (add_item w m a).m_nbytes = m.m_nbytes + claimed_item_nbytes w a ∧
    (add_item w m a).m_size = m.m_size + a.size ∧
    (add_item w m a).items = m.items ++ [a] ∧
    (add_item w m a).m_buf = m.m_buf := by
  unfold add_item MessageBase.add claimed_item_nbytes
  cases a with
  | mk data indices aloc size mpi_type mpi_pack_max_nbytes =>
    by_cases h : mpi_type = MPI_DATATYPE_NULL
    · simp [h, Nat.mul_comm]
    · simp [h]

theorem add_all_fields (w : Nat) (args : List list_item_type) :
    ∀ m : MessageBase,
      (add_all w m args).m_max_nbytes
          = m.m_max_nbytes + (args.map (claimed_item_nbytes w)).sum ∧
      (add_all w m args).m_nbytes = m.m_nbytes + (args.map (claimed_item_nbytes w)).sum ∧
      (add_all w m args).m_size = m.m_size + (args.map list_item_type.size).sum ∧
      (add_all w m args).items = m.items ++ args ∧
      (add_all w m args).m_buf = m.m_buf := by
  induction args with
  | nil => intro m; simp [add_all]
  | cons a rest ih =>
    intro m
    obtain ⟨h1, h2, h3, h4, h5⟩ := ih (add_item w m a)
    obtain ⟨g1, g2, g3, g4, g5⟩ := add_item_fields w m a
    have e : add_all w m (a :: rest) = add_all w (add_item w m a) rest := rfl
    rw [e, h1, h2, h3, h4, h5, g1, g2, g3, g4, g5]
    simp [Nat.add_assoc]

/-- The element count after any sequence of `add` calls: the value that `m_size` held when
the constructor returned, plus the sizes added. -/
theorem size_after_adds (w : Nat) (partner_rank tag : Int) (have_many : Bool)
    (indeterminate : Nat) (args : List list_item_type) :
    (add_all w (MessageBase.ctor partner_rank tag have_many indeterminate) args).size
        = indeterminate + (args.map list_item_type.size).sum := by
  obtain ⟨-, -, h3, -⟩ :=
    add_all_fields w args (MessageBase.ctor partner_rank tag have_many indeterminate)
  rw [MessageBase.size, h3]
  simp [MessageBase.ctor]

/-- C3: the constructor leaves `m_size` uninitialised, so `size()` is not the sum of the
added sizes: a Message built in storage whose `m_size` word holds 7 reports 7 with no
item added, and 13 after two `add` calls of sizes 2 and 4. -/
theorem size_not_sum_of_added_sizes :
    (add_all 8 (MessageBase.ctor 0 0 false 7) []).size = 7 ∧
    (add_all 8 (MessageBase.ctor 0 0 false 7)
        [⟨1000, 2000, 0, 2, MPI_DATATYPE_NULL, 0⟩,
          ⟨1100, 2100, 0, 4, MPI_DATATYPE_NULL, 0⟩]).size = 13 := by
  decide

/-! ## The native-typed path with one item -/

/-- C8: under the native-typed context, `allocate` on a Message with no buffer makes no
allocator call and leaves the buffer null exactly when the Message has one item; with any
other number of items (zero included) its one call requests `max_nbytes()` bytes, and the
buffer becomes the pointer returned. -/
theorem allocate_mpi_type_no_buffer (m : MessageBase) (buf_aloc : Nat → Ptr)
    (h : m.m_buf = nullptr) :
    (((Message.allocate_mpi_type m buf_aloc).2 = [] ∧
        (Message.allocate_mpi_type m buf_aloc).1.m_buf = nullptr) ↔ m.items.length = 1) ∧
    (m.items.length ≠ 1 →
      (Message.allocate_mpi_type m buf_aloc).2 = [Call.allocate m.max_nbytes] ∧
      (Message.allocate_mpi_type m buf_aloc).1 = { m with m_buf := buf_aloc m.max_nbytes }) := by
  unfold Message.allocate_mpi_type
  rw [if_pos h]
  match hi : m.items with
  | [] => simp
  | [a] => simp [h]
  | a :: b :: rest => simp

theorem allocate_mpi_type_no_buffer_witness :
    single_native_item.items.map list_item_type.size = [10] ∧
    (Message.allocate_mpi_type single_native_item (fun _ => 4096)).2 = [] ∧
    (Message.allocate_mpi_type single_native_item (fun _ => 4096)).1.m_buf = nullptr :=
  ⟨by decide,
    (allocate_mpi_type_no_buffer single_native_item (fun _ => 4096) (by decide)).1.mpr
      (by decide)⟩

/-- With a buffer in place `allocate` does nothing, under either context. -/
theorem allocate_in_of_buffer (con : ExecContext) (m : MessageBase) (buf_aloc : Nat → Ptr)
    (h : m.m_buf ≠ nullptr) : Message.allocate_in con m buf_aloc = (m, []) := by
  cases con
  · simp only [Message.allocate_in, Message.allocate]
    rw [if_neg h]
  · simp only [Message.allocate_in, Message.allocate_mpi_type]
    rw [if_neg h]

/-- With exactly one item the native-typed `allocate` does nothing. -/
theorem allocate_mpi_type_of_single (m : MessageBase) (buf_aloc : Nat → Ptr)
    (h : m.items.length = 1) :
    Message.allocate_in ExecContext.mpi_type_pol m buf_aloc = (m, []) := by
  simp only [Message.allocate_in, Message.allocate_mpi_type]
  match hi : m.items, h with
  | [a], _ => simp

/-- C9, as the claim states it, fails for an allocator that returns null: on a Message with
no items (`nbytes()` is 0) and an allocator that returns null for a zero-byte request, two
generic `allocate` calls in a row make two allocator calls. -/
theorem allocate_twice_null_allocator_two_calls :
    (Message.allocate_in ExecContext.generic (MessageBase.ctor 0 0 false 0)
        null_on_zero_aloc).2 ++
      (Message.allocate_in ExecContext.generic
        (Message.allocate_in ExecContext.generic (MessageBase.ctor 0 0 false 0)
          null_on_zero_aloc).1 null_on_zero_aloc).2
      = [Call.allocate 0, Call.allocate 0] := by
  decide

/-- C9, amended: when the first `allocate` leaves the buffer non-null, or the context is
native-typed and the Message has exactly one item, a second `allocate` under the same
context (whatever the allocator would return then) makes no allocator call and leaves the
Message, its buffer pointer included, as the first call left it; the two calls together
make at most one allocator call. -/
theorem allocate_twice (con : ExecContext) (m : MessageBase) (aloc1 aloc2 : Nat → Ptr)
    (h : (Message.allocate_in con m aloc1).1.m_buf ≠ nullptr ∨
      (con = ExecContext.mpi_type_pol ∧ m.items.length = 1)) :
    Message.allocate_in con (Message.allocate_in con m aloc1).1 aloc2
        = ((Message.allocate_in con m aloc1).1, []) ∧
    ((Message.allocate_in con m aloc1).2 ++
      (Message.allocate_in con (Message.allocate_in con m aloc1).1 aloc2).2).length ≤ 1 := by
  have key : Message.allocate_in con (Message.allocate_in con m aloc1).1 aloc2
      = ((Message.allocate_in con m aloc1).1, []) := by
    rcases h with h | ⟨hc, hl⟩
    · exact allocate_in_of_buffer con _ aloc2 h
    · subst hc
      have e : ∀ a, Message.allocate_in ExecContext.mpi_type_pol m a = (m, []) :=
        fun a => allocate_mpi_type_of_single m a hl
      rw [e aloc1]
      exact e aloc2
  refine ⟨key, ?_⟩
  rw [key]
  cases con
  · simp only [Message.allocate_in, Message.allocate]
    split <;> simp
  · simp only [Message.allocate_in, Message.allocate_mpi_type]
    split
    · split <;> simp
    · simp

theorem allocate_twice_witness :
    (Message.allocate_in ExecContext.generic three_items (fun _ => 4096)).1.m_buf = 4096 ∧
    (Message.allocate_in ExecContext.generic
        (Message.allocate_in ExecContext.generic three_items (fun _ => 4096)).1
        (fun _ => 8192)).1.m_buf = 4096 ∧
    ((Message.allocate_in ExecContext.generic three_items (fun _ => 4096)).2 ++
      (Message.allocate_in ExecContext.generic
        (Message.allocate_in ExecContext.generic three_items (fun _ => 4096)).1
        (fun _ => 8192)).2).length ≤ 1 := by
  have h := allocate_twice ExecContext.generic three_items (fun _ => 4096) (fun _ => 8192)
    (Or.inl (by decide))
  refine ⟨by decide, ?_, h.2⟩
  rw [h.1]
  decide

/-- C10: `deallocate` sets the buffer pointer to null and changes no other field; it calls
the allocator's `deallocate` once, with the buffer, when the buffer was non-null and not
at all when it was null; a second `deallocate` makes no call and returns the Message
unchanged, so the two together release the buffer at most once. -/
theorem deallocate_twice (m : MessageBase) :
    (Message.deallocate m).1 = { m with m_buf := nullptr } ∧
    (Message.deallocate m).1.m_buf = nullptr ∧
    (Message.deallocate m).2
        = (if m.m_buf = nullptr then [] else [Call.deallocate m.m_buf]) ∧
    Message.deallocate (Message.deallocate m).1 = ((Message.deallocate m).1, []) ∧
    ((Message.deallocate m).2 ++ (Message.deallocate (Message.deallocate m).1).2).length
        ≤ 1 := by
  unfold Message.deallocate
  by_cases h : m.m_buf = nullptr
  · cases m
    simp_all
  · simp [h]

/-! ## The byte counters along a run -/

theorem pack_mpi_type_loop_le {V : Type} (mpi : MPI V) (hmpi : mpi.Pack_within_outsize)
    (buf : Ptr) (outsize : Nat) (items : List list_item_type) :
    ∀ (pos : Nat) (mem : Mem V), pos ≤ outsize →
      (Message.pack_mpi_type_loop mpi buf outsize items pos mem).1 ≤ outsize := by
  induction items with
  | nil => intro pos mem h; exact h
  | cons i rest ih =>
    intro pos mem h
    simp only [Message.pack_mpi_type_loop]
    exact ih _ _ (hmpi _ _ _ _ _ _ _ h)

theorem unpack_mpi_type_msg {V : Type} (mpi : MPI V) (m m' : MessageBase) (mem mem' : Mem V)
    (h : Message.unpack_mpi_type mpi m mem = some (m', mem')) : m' = m := by
  unfold Message.unpack_mpi_type at h
  split at h
  · simp only [Option.some.injEq, Prod.mk.injEq] at h
    exact h.1.symm
  · simp only at h
    split at h
    · exact absurd h (by simp)
    · simp only [Option.some.injEq, Prod.mk.injEq] at h
      exact h.1.symm

theorem allocate_in_fields (con : ExecContext) (m : MessageBase) (buf_aloc : Nat → Ptr) :
    (Message.allocate_in con m buf_aloc).1.items = m.items ∧
    (Message.allocate_in con m buf_aloc).1.m_max_nbytes = m.m_max_nbytes ∧
    (Message.allocate_in con m buf_aloc).1.m_nbytes = m.m_nbytes := by
  cases con
  · simp only [Message.allocate_in, Message.allocate]
    split <;> simp
  · simp only [Message.allocate_in, Message.allocate_mpi_type]
    split
    · split <;> simp
    · simp

theorem deallocate_fields (m : MessageBase) :
    (Message.deallocate m).1.items = m.items ∧
    (Message.deallocate m).1.m_max_nbytes = m.m_max_nbytes ∧
    (Message.deallocate m).1.m_nbytes = m.m_nbytes := by
  simp only [Message.deallocate]
  split <;> simp

theorem step_nbytes_eq {V : Type} (mpi : MPI V) (imem : IdxMem) (w : Nat) (op : Op)
    (s s' : World V) (hop : op.is_pack_mpi_type = false)
    (hm : s.msg.m_nbytes = s.msg.m_max_nbytes) (h : step mpi imem w op s = some s') :
    s'.msg.m_nbytes = s'.msg.m_max_nbytes := by
  cases op with
  | add data indices aloc size mpi_type mpi_pack_max_nbytes =>
    simp only [step, Option.some.injEq] at h
    rw [← h]
    simp only [MessageBase.add]
    split <;> simp [hm]
  | destroy =>
    simp only [step, Option.some.injEq] at h
    rw [← h]
    exact hm
  | allocate con buf_aloc =>
    simp only [step, Option.some.injEq] at h
    rw [← h]
    obtain ⟨-, e2, e3⟩ := allocate_in_fields con s.msg buf_aloc
    simp only [e2, e3]
    exact hm
  | deallocate con =>
    simp only [step, Option.some.injEq] at h
    rw [← h]
    obtain ⟨-, e2, e3⟩ := deallocate_fields s.msg
    simp only [e2, e3]
    exact hm
  | pack con =>
    cases con with
    | generic =>
      simp only [step, Option.map_eq_some'] at h
      obtain ⟨mem, -, e⟩ := h
      rw [← e]
      exact hm
    | mpi_type_pol => exact absurd hop (by simp [Op.is_pack_mpi_type])
  | unpack con =>
    cases con with
    | generic =>
      simp only [step, Option.map_eq_some'] at h
      obtain ⟨mem, -, e⟩ := h
      rw [← e]
      exact hm
    | mpi_type_pol =>
      simp only [step, Option.map_eq_some'] at h
      obtain ⟨r, hr, e⟩ := h
      rw [← e]
      have := unpack_mpi_type_msg mpi s.msg r.1 s.mem r.2 hr
      simp only [this]
      exact hm
  | Isend con =>
    cases con <;>
    · simp only [step, Option.some.injEq] at h
      rw [← h]
      exact hm
  | Irecv con =>
    cases con <;>
    · simp only [step, Option.some.injEq] at h
      rw [← h]
      exact hm

theorem run_nbytes_eq {V : Type} (mpi : MPI V) (imem : IdxMem) (w : Nat) (ops : List Op) :
    ∀ (s s' : World V), (∀ op ∈ ops, op.is_pack_mpi_type = false) →
      s.msg.m_nbytes = s.msg.m_max_nbytes →
      run mpi imem w ops s = some s' → s'.msg.m_nbytes = s'.msg.m_max_nbytes := by
  induction ops with
  | nil =>
    intro s s' _ hm h
    simp only [run, Option.some.injEq] at h
    rw [← h]
    exact hm
  | cons op ops ih =>
    intro s s' hop hm h
    simp only [run, Option.bind_eq_some] at h
    obtain ⟨t, ht, hrest⟩ := h
    exact ih t s' (fun o ho => hop o (List.mem_cons_of_mem _ ho))
      (step_nbytes_eq mpi imem w op s t (hop op (List.mem_cons_self _ _)) hm ht) hrest

theorem MPI.advance8_within_outsize : MPI.advance8.Pack_within_outsize := by
  intro inbuf incount datatype outbuf outsize position mem h
  simp only [MPI.advance8]
  split <;> omega

/-- C7, as the claim states it, fails after a native-typed pack: one native-typed item of 10
eight-byte elements with `mpi_pack_max_nbytes` 96, packed under the native-typed context,
leaves a Message with no buffer on which the generic `allocate` requests 80 bytes while
`max_nbytes()` is 96. -/
theorem allocate_requests_less_than_max_nbytes :
    (run MPI.advance8 (fun _ => 0) 8 single_native_pack_ops
        (World.fresh 3 7 false 0 (fun _ => 0))).map
      (fun s => (s.msg.m_buf, (Message.allocate s.msg (fun _ => 4096)).2, s.msg.max_nbytes))
      = some (nullptr, [Call.allocate 80], 96) := by
  decide

/-- C7, amended: in every state reachable from construction by add, destroy, allocate,
deallocate, pack, unpack, Isend and Irecv under any context, the generic `allocate` on a
Message with no buffer makes one allocator call, requesting `nbytes()` bytes; that is
`max_nbytes()` bytes when the run contains no `pack` under the native-typed context. -/
theorem allocate_requests_nbytes {V : Type} (mpi : MPI V) (imem : IdxMem) (w : Nat)
    (ops : List Op) (partner_rank tag : Int) (have_many : Bool) (indeterminate : Nat)
    (mem : Mem V) (s : World V) (buf_aloc : Nat → Ptr)
    (hrun : run mpi imem w ops (World.fresh partner_rank tag have_many indeterminate mem)
      = some s)
    (hbuf : s.msg.m_buf = nullptr) :
    (Message.allocate s.msg buf_aloc).2 = [Call.allocate s.msg.nbytes] ∧
    ((∀ op ∈ ops, op.is_pack_mpi_type = false) →
      (Message.allocate s.msg buf_aloc).2 = [Call.allocate s.msg.max_nbytes]) := by
  have h1 : (Message.allocate s.msg buf_aloc).2 = [Call.allocate s.msg.nbytes] := by
    simp [Message.allocate, hbuf]
  refine ⟨h1, fun hop => ?_⟩
  have e : s.msg.nbytes = s.msg.max_nbytes := run_nbytes_eq mpi imem w ops _ s hop rfl hrun
  rw [h1, e]

theorem allocate_requests_nbytes_witness :
    ∃ s, run MPI.advance8 (fun _ => 0) 8 generic_ops
        (World.fresh 3 7 false 0 (fun _ => 0)) = some s ∧
      s.msg.m_buf = nullptr ∧ s.msg.max_nbytes = 112 ∧
      (Message.allocate s.msg (fun _ => 4096)).2 = [Call.allocate s.msg.max_nbytes] :=
  ⟨_, rfl, by decide, by decide,
    (allocate_requests_nbytes MPI.advance8 (fun _ => 0) 8 generic_ops 3 7 false 0
      (fun _ => 0) _ (fun _ => 4096) rfl (by decide)).2 (by decide)⟩

/-! ## The copy loop -/

theorem for_all_zero_succ {V : Type} (n : Nat) (body : Nat → Mem V → Mem V) (mem : Mem V) :
    for_all 0 (n + 1) body mem = body n (for_all 0 n body mem) := by
  simp [for_all, List.range'_1_concat, List.foldl_append]

theorem for_all_zero_zero {V : Type} (body : Nat → Mem V → Mem V) (mem : Mem V) :
    for_all 0 0 body mem = mem := by
  simp [for_all]

/-- The sequential copy loop `dst[idst(i)] = src[isrc(i)]`, `i` in `[0, n)`, when no element
read is an element written: an element that is not written keeps its value, and an element
that is written holds the source element of one of the positions that write it. -/
theorem for_all_copy {V : Type} (src dst : Ptr) (isrc idst : Nat → Nat) (mem : Mem V) :
    ∀ n : Nat, (∀ i < n, ∀ j < n, src + isrc i ≠ dst + idst j) →
      (∀ x, (∀ j < n, x ≠ dst + idst j) →
        for_all 0 n (make_copy_idxr_idxr src isrc dst idst) mem x = mem x) ∧
      (∀ j < n, ∃ j', j' < n ∧ idst j' = idst j ∧
        for_all 0 n (make_copy_idxr_idxr src isrc dst idst) mem (dst + idst j)
          = mem (src + isrc j')) := by
  intro n
  induction n with
  | zero =>
    intro _
    refine ⟨fun x _ => by rw [for_all_zero_zero], fun j hj => absurd hj (Nat.not_lt_zero j)⟩
  | succ n ih =>
    intro hsep
    obtain ⟨frame, content⟩ :=
      ih (fun i hi j hj => hsep i (Nat.lt_succ_of_lt hi) j (Nat.lt_succ_of_lt hj))
    have hread : for_all 0 n (make_copy_idxr_idxr src isrc dst idst) mem (src + isrc n)
        = mem (src + isrc n) :=
      frame _ (fun j hj => hsep n (Nat.lt_succ_self n) j (Nat.lt_succ_of_lt hj))
    constructor
    · intro x hx
      rw [for_all_zero_succ]
      simp only [make_copy_idxr_idxr]
      rw [Function.update_noteq (hx n (Nat.lt_succ_self n))]
      exact frame x (fun j hj => hx j (Nat.lt_succ_of_lt hj))
    · intro j hj
      rw [for_all_zero_succ]
      simp only [make_copy_idxr_idxr]
      by_cases hjn : dst + idst j = dst + idst n
      · refine ⟨n, Nat.lt_succ_self n, (Nat.add_left_cancel hjn).symm, ?_⟩
        rw [hjn, Function.update_same]
        exact hread
      · have hlt : j < n := by
          rcases Nat.lt_succ_iff_lt_or_eq.mp hj with h | h
          · exact h
          · exact absurd (by rw [h]) hjn
        obtain ⟨j', hj', e1, e2⟩ := content j hlt
        refine ⟨j', Nat.lt_succ_of_lt hj', e1, ?_⟩
        rw [Function.update_noteq hjn]
        exact e2

/-! ## Offsets -/

theorem total_size_cons (it : list_item_type) (rest : List list_item_type) :
    total_size (it :: rest) = it.size + total_size rest := by
  simp [total_size]

theorem claimed_offset_zero (items : List list_item_type) : claimed_offset items 0 = 0 := by
  simp [claimed_offset]

theorem claimed_offset_cons_succ (it : list_item_type) (rest : List list_item_type) (k : Nat) :
    claimed_offset (it :: rest) (k + 1) = it.size + claimed_offset rest k := by
  simp [claimed_offset]

theorem claimed_offset_add_lt (items : List list_item_type) :
    ∀ (k : Nat) (it : list_item_type), items[k]? = some it → ∀ i < it.size,
      claimed_offset items k + i < total_size items := by
  induction items with
  | nil => intro k it h; simp at h
  | cons a rest ih =>
    intro k it h i hi
    rw [total_size_cons]
    cases k with
    | zero =>
      simp only [List.getElem?_cons_zero, Option.some.injEq] at h
      rw [claimed_offset_zero, h]
      omega
    | succ k =>
      simp only [List.getElem?_cons_succ] at h
      rw [claimed_offset_cons_succ]
      have := ih k it h i hi
      omega

theorem outside_buffer_tail (imem : IdxMem) (a : list_item_type) (rest : List list_item_type)
    (buf : Ptr) (h : outside_buffer imem (a :: rest) buf) :
    outside_buffer imem rest (buf + a.size) := by
  intro it hit i hi
  have := h it (List.mem_cons_of_mem _ hit) i hi
  rw [total_size_cons] at this
  simp only [Ptr] at *
  omega

/-! ## The generic pack -/

theorem pack_loop_cons {V : Type} (imem : IdxMem) (a : list_item_type)
    (rest : List list_item_type) (buf : Ptr) (mem : Mem V) :
    Message.pack_loop imem (a :: rest) buf mem
      = Message.pack_loop imem rest (buf + a.size)
          (for_all 0 a.size
            (make_copy_idxr_idxr a.data (indexer_list_idx imem a.indices) buf indexer_idx) mem) :=
  rfl

/-- The item loop of the generic pack, when the items' data lies outside the buffer region:
memory outside the region is unchanged, and element `claimed_offset items k + i` of the
buffer holds the element that item `k` addresses at position `i`. -/
theorem pack_loop_spec {V : Type} (imem : IdxMem) (items : List list_item_type) :
    ∀ (buf : Ptr) (mem : Mem V), outside_buffer imem items buf →
      (∀ x, (x < buf ∨ buf + total_size items ≤ x) →
        Message.pack_loop imem items buf mem x = mem x) ∧
      (∀ (k : Nat) (it : list_item_type), items[k]? = some it → ∀ i < it.size,
        Message.pack_loop imem items buf mem (buf + claimed_offset items k + i)
          = mem (item_addr imem it i)) := by
  induction items with
  | nil =>
    intro buf mem _
    exact ⟨fun x _ => rfl, fun k it h => by simp at h⟩
  | cons a rest ih =>
    intro buf mem hout
    have ha : ∀ i < a.size, item_addr imem a i < buf ∨
        buf + (a.size + total_size rest) ≤ item_addr imem a i := by
      intro i hi
      have := hout a (List.mem_cons_self _ _) i hi
      rwa [total_size_cons] at this
    obtain ⟨cframe, ccontent⟩ :=
      for_all_copy a.data buf (indexer_list_idx imem a.indices) indexer_idx mem a.size
        (by
          intro i hi j hj
          have := ha i hi
          simp only [item_addr, Ptr] at *
          simp only [indexer_idx]
          omega)
    obtain ⟨frame, content⟩ := ih (buf + a.size)
      (for_all 0 a.size
        (make_copy_idxr_idxr a.data (indexer_list_idx imem a.indices) buf indexer_idx) mem)
      (outside_buffer_tail imem a rest buf hout)
    constructor
    · intro x hx
      rw [total_size_cons] at hx
      rw [pack_loop_cons, frame x (by simp only [Ptr] at *; omega)]
      apply cframe
      intro j hj
      simp only [indexer_idx, Ptr] at *
      omega
    · intro k it hk i hi
      rw [pack_loop_cons]
      cases k with
      | zero =>
        simp only [List.getElem?_cons_zero, Option.some.injEq] at hk
        subst hk
        rw [claimed_offset_zero, frame _ (by simp only [Ptr] at *; omega)]
        obtain ⟨j', -, e1, e2⟩ := ccontent i hi
        simp only [indexer_idx] at e1 e2
        rw [Nat.add_zero, e2, e1]
        rfl
      | succ k =>
        simp only [List.getElem?_cons_succ] at hk
        rw [claimed_offset_cons_succ]
        have e : buf + (a.size + claimed_offset rest k) + i
            = buf + a.size + claimed_offset rest k + i := by simp only [Ptr] at *; omega
        rw [e, content k it hk i hi]
        apply cframe
        intro j hj
        have := hout it (List.mem_cons_of_mem _ (List.getElem?_mem hk)) i hi
        rw [total_size_cons] at this
        simp only [indexer_idx, Ptr] at *
        omega

/-! ## The generic unpack -/

theorem unpack_loop_cons {V : Type} (imem : IdxMem) (a : list_item_type)
    (rest : List list_item_type) (buf : Ptr) (mem : Mem V) :
    Message.unpack_loop imem (a :: rest) buf mem
      = Message.unpack_loop imem rest (buf + a.size)
          (for_all 0 a.size
            (make_copy_idxr_idxr buf indexer_idx a.data (indexer_list_idx imem a.indices)) mem) :=
  rfl

/-- The item loop of the generic unpack, when the items' data lies outside the buffer region
and the items address distinct arrays: an element that no item addresses is unchanged, and
the element that item `k` addresses at position `i` holds buffer element
`claimed_offset items k + j` for a position `j` of the item that addresses the same
element (the last one, when an index is repeated). -/
theorem unpack_loop_spec {V : Type} (imem : IdxMem) (items : List list_item_type) :
    ∀ (buf : Ptr) (mem : Mem V), outside_buffer imem items buf → distinct_arrays imem items →
      (∀ x, (∀ it ∈ items, ∀ i < it.size, x ≠ item_addr imem it i) →
        Message.unpack_loop imem items buf mem x = mem x) ∧
      (∀ (k : Nat) (it : list_item_type), items[k]? = some it → ∀ i < it.size,
        ∃ j, j < it.size ∧ item_addr imem it j = item_addr imem it i ∧
          Message.unpack_loop imem items buf mem (item_addr imem it i)
            = mem (buf + claimed_offset items k + j)) := by
  induction items with
  | nil =>
    intro buf mem _ _
    exact ⟨fun x _ => rfl, fun k it h => by simp at h⟩
  | cons a rest ih =>
    intro buf mem hout hdist
    have ha : ∀ i < a.size, item_addr imem a i < buf ∨
        buf + (a.size + total_size rest) ≤ item_addr imem a i := by
      intro i hi
      have := hout a (List.mem_cons_self _ _) i hi
      rwa [total_size_cons] at this
    obtain ⟨hhead, htail⟩ := List.pairwise_cons.mp hdist
    obtain ⟨cframe, ccontent⟩ :=
      for_all_copy buf a.data indexer_idx (indexer_list_idx imem a.indices) mem a.size
        (by
          intro i hi j hj
          have := ha j hj
          simp only [item_addr, Ptr] at *
          simp only [indexer_idx]
          omega)
    obtain ⟨frame, content⟩ := ih (buf + a.size)
      (for_all 0 a.size
        (make_copy_idxr_idxr buf indexer_idx a.data (indexer_list_idx imem a.indices)) mem)
      (outside_buffer_tail imem a rest buf hout) htail
    constructor
    · intro x hx
      rw [unpack_loop_cons,
        frame x (fun it hit i hi => hx it (List.mem_cons_of_mem _ hit) i hi)]
      exact cframe x (fun j hj => hx a (List.mem_cons_self _ _) j hj)
    · intro k it hk i hi
      rw [unpack_loop_cons]
      cases k with
      | zero =>
        simp only [List.getElem?_cons_zero, Option.some.injEq] at hk
        subst hk
        rw [frame _ (fun it hit j hj => hhead it hit i hi j hj)]
        obtain ⟨j, hj, e1, e2⟩ := ccontent i hi
        refine ⟨j, hj, by simp only [item_addr, e1], ?_⟩
        rw [claimed_offset_zero]
        simp only [indexer_idx] at e2
        exact e2
      | succ k =>
        simp only [List.getElem?_cons_succ] at hk
        obtain ⟨j, hj, e1, e2⟩ := content k it hk i hi
        refine ⟨j, hj, e1, ?_⟩
        rw [e2, claimed_offset_cons_succ]
        have e : buf + (a.size + claimed_offset rest k) + j
            = buf + a.size + claimed_offset rest k + j := by simp only [Ptr] at *; omega
        rw [e]
        apply cframe
        intro l hl
        have h1 := ha l hl
        have h2 := claimed_offset_add_lt rest k it hk j hj
        simp only [item_addr, Ptr] at *
        omega

/-! ## Messages of the same shape -/

theorem same_shape_at (imemA imemB : IdxMem) (itemsA itemsB : List list_item_type)
    (h : List.Forall₂ (same_shape imemA imemB) itemsA itemsB) :
    ∀ (k : Nat) (a b : list_item_type), itemsA[k]? = some a → itemsB[k]? = some b →
      same_shape imemA imemB a b := by
  induction h with
  | nil => intro k a b ha; simp at ha
  | cons hab _ ih =>
    intro k a b ha hb
    cases k with
    | zero =>
      simp only [List.getElem?_cons_zero, Option.some.injEq] at ha hb
      rw [← ha, ← hb]
      exact hab
    | succ k =>
      simp only [List.getElem?_cons_succ] at ha hb
      exact ih k a b ha hb

theorem same_shape_sizes (imemA imemB : IdxMem) (itemsA itemsB : List list_item_type)
    (h : List.Forall₂ (same_shape imemA imemB) itemsA itemsB) :
    itemsA.map list_item_type.size = itemsB.map list_item_type.size := by
  induction h with
  | nil => rfl
  | cons hab _ ih => simp only [List.map_cons, ih, hab.1]

theorem claimed_offset_eq_of_sizes (itemsA itemsB : List list_item_type)
    (h : itemsA.map list_item_type.size = itemsB.map list_item_type.size) (k : Nat) :
    claimed_offset itemsA k = claimed_offset itemsB k := by
  simp only [claimed_offset, List.map_take, h]

theorem item_addr_of_indices (imem : IdxMem) (it : list_item_type) (i : Nat)
    (h : it.indices ≠ nullptr) : item_addr imem it i = it.data + imem (it.indices + i) := by
  simp only [item_addr, indexer_list_idx]
  rw [if_neg h]

/-- C1: round trip on the generic path.  Message A is packed; message B has the same sizes
and index-array contents as A, item by item, its destination arrays are distinct from one
another, and its buffer holds what A's buffer holds after the pack (the data of both lies
outside their buffers).  Then both operations succeed and after B's unpack, for every item
`k` and every `i < size_k`, `dst_k[indices_k[i]]` is the value that `src_k[indices_k[i]]`
had in A, repeated indices included. -/
theorem pack_unpack_round_trip {V : Type} (imemA imemB : IdxMem) (mA mB : MessageBase)
    (memA memB : Mem V)
    (hbufA : mA.m_buf ≠ nullptr) (hbufB : mB.m_buf ≠ nullptr)
    (hshape : List.Forall₂ (same_shape imemA imemB) mA.items mB.items)
    (hsepA : outside_buffer imemA mA.items mA.m_buf)
    (hsepB : outside_buffer imemB mB.items mB.m_buf)
    (hdst : distinct_arrays imemB mB.items)
    (hcontents : ∀ memA', Message.pack imemA mA memA = some memA' →
      ∀ j < total_size mA.items, memB (mB.m_buf + j) = memA' (mA.m_buf + j)) :
    ∃ memA' memB', Message.pack imemA mA memA = some memA' ∧
      Message.unpack imemB mB memB = some memB' ∧
      ∀ (k : Nat) (a b : list_item_type), mA.items[k]? = some a → mB.items[k]? = some b →
        ∀ i < a.size,
          memB' (b.data + imemB (b.indices + i)) = memA (a.data + imemA (a.indices + i)) := by
  have hp : Message.pack imemA mA memA
      = some (Message.pack_loop imemA mA.items mA.m_buf memA) := by
    simp only [Message.pack]
    rw [if_neg hbufA]
  have hu : Message.unpack imemB mB memB
      = some (Message.unpack_loop imemB mB.items mB.m_buf memB) := by
    simp only [Message.unpack]
    rw [if_neg hbufB]
  refine ⟨_, _, hp, hu, ?_⟩
  intro k a b hka hkb i hi
  obtain ⟨hsize, hia, hib, hidx⟩ := same_shape_at imemA imemB _ _ hshape k a b hka hkb
  have hsizes := same_shape_sizes imemA imemB _ _ hshape
  have hib' : i < b.size := hsize ▸ hi
  obtain ⟨j, hj, e1, e2⟩ :=
    (unpack_loop_spec imemB mB.items mB.m_buf memB hsepB hdst).2 k b hkb i hib'
  have hja : j < a.size := hsize ▸ hj
  rw [item_addr_of_indices imemB b i hib] at e2
  rw [item_addr_of_indices imemB b j hib, item_addr_of_indices imemB b i hib] at e1
  have hoff := claimed_offset_eq_of_sizes _ _ hsizes k
  have hlt := claimed_offset_add_lt mA.items k a hka j hja
  have hbuf := hcontents _ hp (claimed_offset mA.items k + j) hlt
  have hpack := (pack_loop_spec imemA mA.items mA.m_buf memA hsepA).2 k a hka j hja
  rw [item_addr_of_indices imemA a j hia] at hpack
  have hidx_j := hidx j hja
  have hidx_i := hidx i hi
  have eidx : imemA (a.indices + j) = imemA (a.indices + i) := by
    rw [← hidx_j, ← hidx_i]
    exact Nat.add_left_cancel e1
  rw [e2, ← hoff, Nat.add_assoc, hbuf, ← Nat.add_assoc, hpack, eidx]

/-! ## Buffer layout -/

theorem pack_unpack_round_trip_witness :
    ∃ memA' memB',
      Message.pack even_indices (built 4 3 7 true 0 three_item_args (fun _ => 300))
        (fun a => a) = some memA' ∧
      Message.unpack even_indices (built 4 9 7 true 0 three_item_dsts (fun _ => 600))
        (received_mem even_indices) = some memB' ∧
      memB' (520 + 2) = 120 + 2 := by
  obtain ⟨memA', memB', hA, hB, h⟩ := pack_unpack_round_trip even_indices even_indices
    (built 4 3 7 true 0 three_item_args (fun _ => 300))
    (built 4 9 7 true 0 three_item_dsts (fun _ => 600))
    (fun a => a) (received_mem even_indices)
    (by decide) (by decide)
    (by
      show List.Forall₂ (same_shape even_indices even_indices) three_item_args three_item_dsts
      unfold same_shape
      decide)
    (by unfold outside_buffer; decide)
    (by unfold outside_buffer; decide)
    (by unfold distinct_arrays; decide)
    (by
      intro memA' hp j _
      have hp' : some (Message.pack_loop even_indices three_item_args 300 (fun a => a))
          = some memA' := hp
      simp only [Option.some.injEq] at hp'
      rw [← hp']
      show Message.pack_loop even_indices three_item_args 300 (fun a => a) (600 + j - 300)
        = Message.pack_loop even_indices three_item_args 300 (fun a => a) (300 + j)
      have e : 600 + j - 300 = 300 + j := by omega
      rw [e])
  refine ⟨memA', memB', hA, hB, ?_⟩
  exact h 1 ⟨120, 220, 0, 8, MPI_DATATYPE_NULL, 0⟩ ⟨520, 220, 0, 8, MPI_DATATYPE_NULL, 0⟩
    rfl rfl 5 (by decide)

/-! ## Dispatch under the native-typed context -/

/-- C11: under the native-typed context, with exactly one item `Isend` and `Irecv` pass the
item's data pointer, count 1 and the item's native type, with the partner rank and the tag,
whatever the buffer is; with any other number of items `Isend` passes the buffer, `nbytes()`
and `MPI_PACKED`, and `Irecv` the buffer, `max_nbytes()` and `MPI_PACKED`. -/
theorem mpi_type_dispatch_arguments (m : MessageBase) :
    (∀ front : list_item_type, m.items = [front] →
      Message.Isend_mpi_type m
        = [Call.start_send front.data 1 front.mpi_type m.partner_rank m.tag] ∧
      Message.Irecv_mpi_type m
        = [Call.start_recv front.data 1 front.mpi_type m.partner_rank m.tag]) ∧
    (m.items.length ≠ 1 →
      Message.Isend_mpi_type m
        = [Call.start_send m.buffer m.nbytes MPI_PACKED m.partner_rank m.tag] ∧
      Message.Irecv_mpi_type m
        = [Call.start_recv m.buffer m.max_nbytes MPI_PACKED m.partner_rank m.tag]) := by
  constructor
  · intro front h
    simp only [Message.Isend_mpi_type, Message.Irecv_mpi_type, h, and_self]
  · intro h
    unfold Message.Isend_mpi_type Message.Irecv_mpi_type
    match hi : m.items with
    | [] => exact ⟨rfl, rfl⟩
    | [a] => rw [hi] at h; exact absurd rfl h
    | a :: b :: rest => exact ⟨rfl, rfl⟩

theorem mpi_type_dispatch_arguments_witness :
    (Message.Isend_mpi_type single_native_item = [Call.start_send 1000 1 (handle 1) 3 7] ∧
      Message.Irecv_mpi_type single_native_item = [Call.start_recv 1000 1 (handle 1) 3 7]) ∧
    (Message.Isend_mpi_type two_native_items = [Call.start_send 300 120 MPI_PACKED 3 7] ∧
      Message.Irecv_mpi_type two_native_items = [Call.start_recv 300 120 MPI_PACKED 3 7]) :=
  ⟨(mpi_type_dispatch_arguments single_native_item).1 ⟨1000, 2000, 0, 10, handle 1, 96⟩
      (by decide),
    (mpi_type_dispatch_arguments two_native_items).2 (by decide)⟩

/-! ## destroy -/

theorem destroy_loop_item_deallocate (items : List list_item_type) :
    (MessageBase.destroy_loop items).filter Call.is_item_deallocate
      = (items.filter fun i => i.indices ≠ nullptr).map
          fun i => Call.item_deallocate i.aloc i.indices := by
  induction items with
  | nil => rfl
  | cons a rest ih =>
    simp only [MessageBase.destroy_loop, List.filter_append, ih]
    by_cases h1 : a.indices = nullptr <;> by_cases h2 : a.mpi_type = MPI_DATATYPE_NULL <;>
      simp [h1, h2, Call.is_item_deallocate]

theorem destroy_loop_Type_free (items : List list_item_type) :
    (MessageBase.destroy_loop items).filter Call.is_Type_free
      = (items.filter fun i => i.mpi_type ≠ MPI_DATATYPE_NULL).map
          fun i => Call.Type_free i.mpi_type := by
  induction items with
  | nil => rfl
  | cons a rest ih =>
    simp only [MessageBase.destroy_loop, List.filter_append, ih]
    by_cases h1 : a.indices = nullptr <;> by_cases h2 : a.mpi_type = MPI_DATATYPE_NULL <;>
      simp [h1, h2, Call.is_Type_free]

theorem destroy_loop_only_releases (items : List list_item_type) :
    ∀ c ∈ MessageBase.destroy_loop items,
      c.is_item_deallocate = true ∨ c.is_Type_free = true := by
  induction items with
  | nil => intro c hc; simp [MessageBase.destroy_loop] at hc
  | cons a rest ih =>
    intro c hc
    simp only [MessageBase.destroy_loop, List.mem_append] at hc
    rcases hc with (hc | hc) | hc
    · split at hc
      · simp only [List.mem_singleton] at hc
        rw [hc]
        exact Or.inl rfl
      · simp at hc
    · split at hc
      · simp only [List.mem_singleton] at hc
        rw [hc]
        exact Or.inr rfl
      · simp at hc
    · exact ih c hc

/-- C12: one `destroy` call leaves the item list empty and every other field as it was; its
releases are, item by item in list order, one `deallocate` of the index array through the
item's own allocator for each item whose index array is non-null, and one `Type_free` of
the native type for each item whose type is not `MPI_DATATYPE_NULL`, and nothing else; a
second `destroy` releases nothing and returns the Message unchanged. -/
theorem destroy_releases_once (m : MessageBase) :
    (m.destroy).1 = { m with items := [] } ∧
    (m.destroy).2.filter Call.is_item_deallocate
      = (m.items.filter fun i => i.indices ≠ nullptr).map
          (fun i => Call.item_deallocate i.aloc i.indices) ∧
    (m.destroy).2.filter Call.is_Type_free
      = (m.items.filter fun i => i.mpi_type ≠ MPI_DATATYPE_NULL).map
          (fun i => Call.Type_free i.mpi_type) ∧
    (∀ c ∈ (m.destroy).2, c.is_item_deallocate = true ∨ c.is_Type_free = true) ∧
    (m.destroy).1.destroy = ((m.destroy).1, []) :=
  ⟨rfl, destroy_loop_item_deallocate m.items, destroy_loop_Type_free m.items,
    destroy_loop_only_releases m.items, rfl⟩

theorem destroy_releases_once_witness :
    (two_native_items.destroy).2
      = [Call.item_deallocate 1 200, Call.Type_free (handle 1), Call.Type_free (handle 2)] ∧
    (two_native_items.destroy).2.filter Call.is_item_deallocate
      = [Call.item_deallocate 1 200] ∧
    (two_native_items.destroy).1.destroy = ((two_native_items.destroy).1, []) :=
  ⟨by decide, (destroy_releases_once two_native_items).2.1.trans (by decide),
    (destroy_releases_once two_native_items).2.2.2.2⟩

/-! ## The assertion on the buffer -/

theorem pack_mpi_type_of_not_single {V : Type} (mpi : MPI V) (w : Nat) (m : MessageBase)
    (mem : Mem V) (h : m.items.length ≠ 1) :
    Message.pack_mpi_type mpi w m mem
      = if m.m_buf = nullptr then none
        else some ({ m with m_nbytes :=
              (Message.pack_mpi_type_loop mpi m.m_buf m.max_nbytes m.items 0 mem).1 },
            (Message.pack_mpi_type_loop mpi m.m_buf m.max_nbytes m.items 0 mem).2) := by
  unfold Message.pack_mpi_type
  match hi : m.items with
  | [] => rfl
  | [a] => rw [hi] at h; exact absurd rfl h
  | a :: b :: rest => rfl

theorem item_addr_of_null (imem : IdxMem) (it : list_item_type) (i : Nat)
    (h : it.indices = nullptr) : item_addr imem it i = it.data + i := by
  simp only [item_addr, indexer_list_idx]
  rw [if_pos h]

/-- C16: in the generic pack an item whose index array is null is read directly,
`buffer[off_k + i] = data_k[i]`, and the generic unpack writes it directly,
`data_k[i] = buffer[off_k + i]`; an item whose index array is present is read and written
through `indices_k[i]` (an element that several positions address receives the buffer
element of one of them).  Stated for a Message with a buffer whose items address distinct
arrays lying outside the buffer. -/
theorem pack_unpack_direct_items {V : Type} (imem : IdxMem) (m : MessageBase) (mem : Mem V)
    (hbuf : m.m_buf ≠ nullptr)
    (hsep : outside_buffer imem m.items m.m_buf)
    (hdist : distinct_arrays imem m.items) :
    ∃ packed unpacked,
      Message.pack imem m mem = some packed ∧ Message.unpack imem m mem = some unpacked ∧
      ∀ (k : Nat) (it : list_item_type), m.items[k]? = some it →
        (it.indices = nullptr → ∀ i < it.size,
          packed (m.m_buf + claimed_offset m.items k + i) = mem (it.data + i) ∧
          unpacked (it.data + i) = mem (m.m_buf + claimed_offset m.items k + i)) ∧
        (it.indices ≠ nullptr → ∀ i < it.size,
          packed (m.m_buf + claimed_offset m.items k + i)
            = mem (it.data + imem (it.indices + i)) ∧
          ∃ j, j < it.size ∧ imem (it.indices + j) = imem (it.indices + i) ∧
            unpacked (it.data + imem (it.indices + i))
              = mem (m.m_buf + claimed_offset m.items k + j)) := by
  refine ⟨Message.pack_loop imem m.items m.m_buf mem,
    Message.unpack_loop imem m.items m.m_buf mem, ?_, ?_, ?_⟩
  · simp only [Message.pack]
    rw [if_neg hbuf]
  · simp only [Message.unpack]
    rw [if_neg hbuf]
  · intro k it hk
    have hp := (pack_loop_spec imem m.items m.m_buf mem hsep).2 k it hk
    have hu := (unpack_loop_spec imem m.items m.m_buf mem hsep hdist).2 k it hk
    constructor
    · intro hnull i hi
      have e := item_addr_of_null imem it i hnull
      obtain ⟨j, hj, e1, e2⟩ := hu i hi
      rw [item_addr_of_null imem it j hnull, e] at e1
      have hji : j = i := Nat.add_left_cancel e1
      rw [hji, e] at e2
      rw [← e]
      exact ⟨hp i hi, e ▸ e2⟩
    · intro hidx i hi
      have e := item_addr_of_indices imem it i hidx
      obtain ⟨j, hj, e1, e2⟩ := hu i hi
      rw [item_addr_of_indices imem it j hidx, e] at e1
      rw [e] at e2
      rw [← e]
      exact ⟨hp i hi, j, hj, Nat.add_left_cancel e1, e ▸ e2⟩

theorem pack_unpack_direct_items_witness :
    ∃ packed unpacked,
      Message.pack even_indices direct_and_indirect (fun a => a) = some packed ∧
      Message.unpack even_indices direct_and_indirect (fun a => a) = some unpacked ∧
      packed (300 + 2) = 100 + 2 ∧ unpacked (100 + 2) = 300 + 2 ∧
      packed (300 + 3 + 1) = 120 + 2 := by
  obtain ⟨packed, unpacked, hp, hu, h⟩ := pack_unpack_direct_items even_indices
    direct_and_indirect (fun a => a) (by decide)
    (by unfold outside_buffer; decide) (by unfold distinct_arrays; decide)
  refine ⟨packed, unpacked, hp, hu, ?_⟩
  have h0 := (h 0 ⟨100, nullptr, 0, 3, MPI_DATATYPE_NULL, 0⟩ rfl).1 rfl 2 (by decide)
  have h1 := ((h 1 ⟨120, 220, 0, 4, MPI_DATATYPE_NULL, 0⟩ rfl).2 (by decide) 1 (by decide)).1
  exact ⟨h0.1, h0.2, h1⟩

/-! ## Flattening of multi-dimensional ranges -/

theorem run_of_items {V : Type} (mpi : MPI V) (imem : IdxMem) (w : Nat)
    (args : List list_item_type) :
    ∀ (rest : List Op) (s : World V),
      run mpi imem w (args.map Op.of_item ++ rest) s
        = run mpi imem w rest { s with msg := add_all w s.msg args } := by
  induction args with
  | nil => intro rest s; rfl
  | cons a tail ih =>
    intro rest s
    simp only [List.map_cons, List.cons_append, run, Op.of_item, step, Option.some_bind]
    exact ih rest _

theorem Isend_mpi_type_count (m : MessageBase) :
    (Message.Isend_mpi_type m).map Call.count
      = [if m.items.length = 1 then 1 else m.nbytes] := by
  unfold Message.Isend_mpi_type
  match m.items with
  | [] => rfl
  | [a] => rfl
  | a :: b :: rest => rfl

theorem Irecv_mpi_type_count (m : MessageBase) :
    (Message.Irecv_mpi_type m).map Call.count
      = [if m.items.length = 1 then 1 else m.max_nbytes] := by
  unfold Message.Irecv_mpi_type
  match m.items with
  | [] => rfl
  | [a] => rfl
  | a :: b :: rest => rfl

theorem pack_mpi_type_fields {V : Type} (mpi : MPI V) (w : Nat) (m m' : MessageBase)
    (mem mem' : Mem V) (h : Message.pack_mpi_type mpi w m mem = some (m', mem')) :
    m'.items = m.items ∧ m'.m_max_nbytes = m.m_max_nbytes := by
  unfold Message.pack_mpi_type at h
  split at h
  · simp only [Option.some.injEq, Prod.mk.injEq] at h
    rw [← h.1]
    exact ⟨rfl, rfl⟩
  · simp only at h
    split at h
    · exact absurd h (by simp)
    · simp only [Option.some.injEq, Prod.mk.injEq] at h
      rw [← h.1]
      exact ⟨rfl, rfl⟩

theorem pack_mpi_type_nbytes_le {V : Type} (mpi : MPI V) (hmpi : mpi.Pack_within_outsize)
    (w : Nat) (m m' : MessageBase) (mem mem' : Mem V) (hlen : m.items.length ≠ 1)
    (h : Message.pack_mpi_type mpi w m mem = some (m', mem')) :
    m'.m_nbytes ≤ m.m_max_nbytes := by
  rw [pack_mpi_type_of_not_single mpi w m mem hlen] at h
  split at h
  · exact absurd h (by simp)
  · simp only [Option.some.injEq, Prod.mk.injEq] at h
    rw [← h.1]
    exact pack_mpi_type_loop_le mpi hmpi m.m_buf m.max_nbytes m.items 0 mem (Nat.zero_le _)

/-- C19: a sender and a receiver are built by the same `add` calls and allocated, and the
sender is packed, all under one context.  Then `Isend` and `Irecv` each make one call, and
the count that the sender passes is at most the count that the receiver passes: on the
generic path both are `nbytes()` and they are equal; on the native-typed path with an item
count other than one the sender passes its `nbytes()` after the pack and the receiver its
`max_nbytes()`.  The transport's structured pack is taken to stay within the buffer size
it is given. -/
theorem send_count_le_recv_count {V : Type} (mpi : MPI V) (hmpi : mpi.Pack_within_outsize)
    (imem : IdxMem) (w : Nat) (con : ExecContext) (args : List list_item_type)
    (rankS tagS : Int) (manyS : Bool) (indS : Nat) (memS : Mem V) (alocS : Nat → Ptr)
    (rankR tagR : Int) (manyR : Bool) (indR : Nat) (memR : Mem V) (alocR : Nat → Ptr)
    (s r : World V)
    (hs : run mpi imem w (args.map Op.of_item ++ [Op.allocate con alocS, Op.pack con])
      (World.fresh rankS tagS manyS indS memS) = some s)
    (hr : run mpi imem w (args.map Op.of_item ++ [Op.allocate con alocR])
      (World.fresh rankR tagR manyR indR memR) = some r) :
    ∃ ns nr,
      (Message.Isend_in con s.msg).map Call.count = [ns] ∧
      (Message.Irecv_in con r.msg).map Call.count = [nr] ∧
      ns ≤ nr ∧
      (con = ExecContext.generic → ns = s.msg.nbytes ∧ nr = r.msg.nbytes ∧ ns = nr) ∧
      (con = ExecContext.mpi_type_pol → args.length ≠ 1 →
        ns = s.msg.nbytes ∧ nr = r.msg.max_nbytes) := by
  rw [run_of_items] at hs hr
  obtain ⟨s1, s2, s3, s4, -⟩ :=
    add_all_fields w args (MessageBase.ctor rankS tagS manyS indS)
  obtain ⟨r1, r2, r3, r4, -⟩ :=
    add_all_fields w args (MessageBase.ctor rankR tagR manyR indR)
  have hitemsS : (add_all w (MessageBase.ctor rankS tagS manyS indS) args).items = args := by
    rw [s4]; rfl
  have hitemsR : (add_all w (MessageBase.ctor rankR tagR manyR indR) args).items = args := by
    rw [r4]; rfl
  have hmaxS : (add_all w (MessageBase.ctor rankS tagS manyS indS) args).m_max_nbytes
      = (args.map (claimed_item_nbytes w)).sum := by
    rw [s1]; simp [MessageBase.ctor]
  have hmaxR : (add_all w (MessageBase.ctor rankR tagR manyR indR) args).m_max_nbytes
      = (args.map (claimed_item_nbytes w)).sum := by
    rw [r1]; simp [MessageBase.ctor]
  have hnbS : (add_all w (MessageBase.ctor rankS tagS manyS indS) args).m_nbytes
      = (args.map (claimed_item_nbytes w)).sum := by
    rw [s2]; simp [MessageBase.ctor]
  have hnbR : (add_all w (MessageBase.ctor rankR tagR manyR indR) args).m_nbytes
      = (args.map (claimed_item_nbytes w)).sum := by
    rw [r2]; simp [MessageBase.ctor]
  obtain ⟨aS1, aS2, aS3⟩ := allocate_in_fields con
    (add_all w (MessageBase.ctor rankS tagS manyS indS) args) alocS
  obtain ⟨aR1, aR2, aR3⟩ := allocate_in_fields con
    (add_all w (MessageBase.ctor rankR tagR manyR indR) args) alocR
  simp only [run, step, Option.some_bind, Option.some.injEq, World.fresh] at hr
  have hrmsg : r.msg = (Message.allocate_in con
      (add_all w (MessageBase.ctor rankR tagR manyR indR) args) alocR).1 := by
    rw [← hr]
  cases con with
  | generic =>
    simp only [run, step, Option.some_bind, World.fresh, Option.bind_eq_some,
      Option.map_eq_some'] at hs
    obtain ⟨t, ⟨mem', -, ht⟩, hts⟩ := hs
    simp only [Option.some.injEq] at hts
    have hsmsg : s.msg = (Message.allocate_in ExecContext.generic
        (add_all w (MessageBase.ctor rankS tagS manyS indS) args) alocS).1 := by
      rw [← hts, ← ht]
    have e1 : s.msg.nbytes = (args.map (claimed_item_nbytes w)).sum := by
      rw [MessageBase.nbytes, hsmsg, aS3, hnbS]
    have e2 : r.msg.nbytes = (args.map (claimed_item_nbytes w)).sum := by
      rw [MessageBase.nbytes, hrmsg, aR3, hnbR]
    refine ⟨s.msg.nbytes, r.msg.nbytes, rfl, rfl, by rw [e1, e2], ?_, ?_⟩
    · intro _
      exact ⟨rfl, rfl, by rw [e1, e2]⟩
    · intro h
      exact absurd h (by decide)
  | mpi_type_pol =>
    simp only [run, step, Option.some_bind, World.fresh, Option.bind_eq_some,
      Option.map_eq_some'] at hs
    obtain ⟨t, ⟨p, hp, ht⟩, hts⟩ := hs
    simp only [Option.some.injEq] at hts
    have hsmsg : s.msg = p.1 := by rw [← hts, ← ht]
    obtain ⟨f1, f2⟩ := pack_mpi_type_fields mpi w _ p.1 _ p.2 hp
    have hsi : s.msg.items = args := by rw [hsmsg, f1, aS1, hitemsS]
    have hri : r.msg.items = args := by rw [hrmsg, aR1, hitemsR]
    have hrmax : r.msg.max_nbytes = (args.map (claimed_item_nbytes w)).sum := by
      rw [MessageBase.max_nbytes, hrmsg, aR2, hmaxR]
    refine ⟨if args.length = 1 then 1 else s.msg.nbytes,
      if args.length = 1 then 1 else r.msg.max_nbytes, ?_, ?_, ?_, ?_, ?_⟩
    · simp only [Message.Isend_in]
      rw [Isend_mpi_type_count, hsi]
    · simp only [Message.Irecv_in]
      rw [Irecv_mpi_type_count, hri]
    · by_cases hlen : args.length = 1
      · rw [if_pos hlen, if_pos hlen]
      · rw [if_neg hlen, if_neg hlen, hrmax, MessageBase.nbytes, hsmsg]
        have hle := pack_mpi_type_nbytes_le mpi hmpi w _ p.1 _ p.2
          (by rw [aS1, hitemsS]; exact hlen) hp
        rw [aS2, hmaxS] at hle
        exact hle
    · intro h
      exact absurd h (by decide)
    · intro _ hlen
      rw [if_neg hlen, if_neg hlen]
      exact ⟨rfl, rfl⟩

theorem send_count_le_recv_count_witness :
    ∃ (s r : World Nat) (ns nr : Nat),
      run MPI.advance8 (fun _ => 0) 8
        (two_native_args.map Op.of_item
          ++ [Op.allocate ExecContext.mpi_type_pol (fun _ => 300),
            Op.pack ExecContext.mpi_type_pol])
        (World.fresh 3 7 true 0 (fun _ => 0)) = some s ∧
      run MPI.advance8 (fun _ => 0) 8
        (two_native_args.map Op.of_item
          ++ [Op.allocate ExecContext.mpi_type_pol (fun _ => 600)])
        (World.fresh 5 7 true 0 (fun _ => 0)) = some r ∧
      (Message.Isend_in ExecContext.mpi_type_pol s.msg).map Call.count = [ns] ∧
      (Message.Irecv_in ExecContext.mpi_type_pol r.msg).map Call.count = [nr] ∧
      ns ≤ nr ∧ s.msg.nbytes = 16 ∧ r.msg.max_nbytes = 120 := by
  obtain ⟨ns, nr, h1, h2, h3, -⟩ := send_count_le_recv_count MPI.advance8
    MPI.advance8_within_outsize (fun _ => 0) 8 ExecContext.mpi_type_pol two_native_args
    3 7 true 0 (fun _ => 0) (fun _ => 300) 5 7 true 0 (fun _ => 0) (fun _ => 600) _ _ rfl rfl
  exact ⟨_, _, ns, nr, rfl, rfl, h1, h2, h3, by decide, by decide⟩

/-! ## destroy changes only the item list -/

theorem add_with_have_many (w : Nat) (m : MessageBase) (b : Bool) (data indices : Ptr)
    (aloc size : Nat) (mpi_type : MPI_Datatype) (mpi_pack_max_nbytes : Nat) :
    (m.with_have_many b).add w data indices aloc size mpi_type mpi_pack_max_nbytes
      = (m.add w data indices aloc size mpi_type mpi_pack_max_nbytes).with_have_many b := by
  unfold MessageBase.add MessageBase.with_have_many
  split <;> rfl

theorem allocate_in_with_have_many (con : ExecContext) (m : MessageBase) (b : Bool)
    (buf_aloc : Nat → Ptr) :
    Message.allocate_in con (m.with_have_many b) buf_aloc
      = ((Message.allocate_in con m buf_aloc).1.with_have_many b,
          (Message.allocate_in con m buf_aloc).2) := by
  cases con
  · simp only [Message.allocate_in, Message.allocate, MessageBase.with_have_many,
      MessageBase.nbytes]
    split <;> rfl
  · simp only [Message.allocate_in, Message.allocate_mpi_type, MessageBase.with_have_many,
      MessageBase.max_nbytes]
    split
    · split <;> rfl
    · rfl

theorem deallocate_with_have_many (m : MessageBase) (b : Bool) :
    Message.deallocate (m.with_have_many b)
      = ((Message.deallocate m).1.with_have_many b, (Message.deallocate m).2) := by
  simp only [Message.deallocate, MessageBase.with_have_many]
  split <;> rfl

theorem pack_mpi_type_with_have_many {V : Type} (mpi : MPI V) (w : Nat) (m : MessageBase)
    (b : Bool) (mem : Mem V) :
    Message.pack_mpi_type mpi w (m.with_have_many b) mem
      = (Message.pack_mpi_type mpi w m mem).map fun r => (r.1.with_have_many b, r.2) := by
  simp only [Message.pack_mpi_type, MessageBase.with_have_many, MessageBase.max_nbytes]
  split
  · rfl
  · split <;> rfl

theorem unpack_mpi_type_with_have_many {V : Type} (mpi : MPI V) (m : MessageBase)
    (b : Bool) (mem : Mem V) :
    Message.unpack_mpi_type mpi (m.with_have_many b) mem
      = (Message.unpack_mpi_type mpi m mem).map fun r => (r.1.with_have_many b, r.2) := by
  simp only [Message.unpack_mpi_type, MessageBase.with_have_many, MessageBase.max_nbytes]
  split
  · rfl
  · split <;> rfl

theorem step_with_have_many {V : Type} (mpi : MPI V) (imem : IdxMem) (w : Nat) (op : Op)
    (s : World V) (b : Bool) :
    step mpi imem w op (s.with_have_many b)
      = (step mpi imem w op s).map fun t => t.with_have_many b := by
  cases op with
  | add data indices aloc size mpi_type mpi_pack_max_nbytes =>
    simp only [step, Option.map_some', World.with_have_many, add_with_have_many]
  | destroy => rfl
  | allocate con buf_aloc =>
    simp only [step, Option.map_some', World.with_have_many, allocate_in_with_have_many]
  | deallocate con =>
    simp only [step, Option.map_some', World.with_have_many, deallocate_with_have_many]
  | pack con =>
    cases con with
    | generic =>
      simp only [step, World.with_have_many, Message.pack, MessageBase.with_have_many]
      split <;> rfl
    | mpi_type_pol =>
      simp only [step, World.with_have_many, pack_mpi_type_with_have_many, Option.map_map]
      rfl
  | unpack con =>
    cases con with
    | generic =>
      simp only [step, World.with_have_many, Message.unpack, MessageBase.with_have_many]
      split <;> rfl
    | mpi_type_pol =>
      simp only [step, World.with_have_many, unpack_mpi_type_with_have_many, Option.map_map]
      rfl
  | Isend con => cases con <;> rfl
  | Irecv con => cases con <;> rfl

theorem run_with_have_many {V : Type} (mpi : MPI V) (imem : IdxMem) (w : Nat)
    (ops : List Op) :
    ∀ (s : World V) (b : Bool),
      run mpi imem w ops (s.with_have_many b)
        = (run mpi imem w ops s).map fun t => t.with_have_many b := by
  induction ops with
  | nil => intro s b; rfl
  | cons op ops ih =>
    intro s b
    simp only [run]
    rw [step_with_have_many]
    cases step mpi imem w op s with
    | none => rfl
    | some t => exact ih t b

theorem pack_mpi_type_of_single {V : Type} (mpi : MPI V) (w : Nat) (m : MessageBase)
    (front : list_item_type) (mem : Mem V) (h : m.items = [front]) :
    Message.pack_mpi_type mpi w m mem = some ({ m with m_nbytes := w * front.size }, mem) := by
  unfold Message.pack_mpi_type
  rw [h]

/-- C21: two Messages constructed with the same arguments but for `have_many` go through any
sequence of add, destroy, allocate, deallocate, pack, unpack, Isend and Irecv under any
contexts in step: one run fails exactly when the other does, and the states they reach
differ in the member `m_have_many` alone, so the memory (the buffer contents with it), the
calls with their arguments (allocator requests, releases, dispatch arguments), the buffer
pointer, the item list and the counters are the same.  Whatever the flag, a Message with
exactly one item takes the single-item native-typed path (pack only sets `nbytes()`,
allocate makes no call) and a Message with any other item count does not. -/
theorem have_many_no_influence {V : Type} (mpi : MPI V) (imem : IdxMem) (w : Nat)
    (ops : List Op) (partner_rank tag : Int) (indeterminate : Nat) (mem : Mem V)
    (b b' : Bool) :
    run mpi imem w ops (World.fresh partner_rank tag b indeterminate mem)
        = (run mpi imem w ops (World.fresh partner_rank tag b' indeterminate mem)).map
            (fun t => t.with_have_many b) ∧
    (∀ s s' : World V,
      run mpi imem w ops (World.fresh partner_rank tag b indeterminate mem) = some s →
      run mpi imem w ops (World.fresh partner_rank tag b' indeterminate mem) = some s' →
        s.mem = s'.mem ∧ s.calls = s'.calls ∧ s.msg.buffer = s'.msg.buffer ∧
        s.msg.items = s'.msg.items ∧ s.msg.max_nbytes = s'.msg.max_nbytes ∧
        s.msg.nbytes = s'.msg.nbytes ∧ s.msg.size = s'.msg.size ∧
        s.msg.partner_rank = s'.msg.partner_rank ∧ s.msg.tag = s'.msg.tag ∧
        s.msg.have_many = b ∧ s'.msg.have_many = b') ∧
    (∀ (m : MessageBase) (c : Bool) (front : list_item_type) (buf_aloc : Nat → Ptr),
      m.items = [front] →
        Message.pack_mpi_type mpi w (m.with_have_many c) mem
          = some ({ m.with_have_many c with m_nbytes := w * front.size }, mem) ∧
        (Message.allocate_mpi_type (m.with_have_many c) buf_aloc).2 = []) ∧
    (∀ (m : MessageBase) (c : Bool) (buf_aloc : Nat → Ptr),
      m.items.length ≠ 1 → m.m_buf = nullptr →
        (Message.allocate_mpi_type (m.with_have_many c) buf_aloc).2
          = [Call.allocate m.max_nbytes]) := by
  have key : ∀ c c' : Bool,
      run mpi imem w ops (World.fresh partner_rank tag c indeterminate mem)
        = (run mpi imem w ops (World.fresh partner_rank tag c' indeterminate mem)).map
            (fun t => t.with_have_many c) :=
    fun c c' => run_with_have_many mpi imem w ops
      (World.fresh partner_rank tag c' indeterminate mem) c
  refine ⟨key b b', ?_, ?_, ?_⟩
  · intro s s' hs hs'
    have h1 := key b b'
    have h2 := key b' b
    rw [hs, hs'] at h1
    rw [hs, hs'] at h2
    simp only [Option.map_some', Option.some.injEq] at h1 h2
    refine ⟨?_, ?_, ?_, ?_, ?_, ?_, ?_, ?_, ?_, ?_, ?_⟩
    all_goals first
      | (rw [h1]; rfl)
      | (rw [h2]; rfl)
  · intro m c front buf_aloc hitems
    have hi : (m.with_have_many c).items = [front] := hitems
    constructor
    · exact pack_mpi_type_of_single mpi w (m.with_have_many c) front mem hi
    · have h := allocate_mpi_type_of_single (m.with_have_many c) buf_aloc (by rw [hi]; rfl)
      simp only [Message.allocate_in] at h
      rw [h]
  · intro m c buf_aloc hlen hbuf
    have hb : (m.with_have_many c).m_buf = nullptr := hbuf
    unfold Message.allocate_mpi_type
    rw [if_pos hb]
    show (match m.items with
      | [_] => (m.with_have_many c, [])
      | _ => ({ m.with_have_many c with m_buf := buf_aloc (m.with_have_many c).max_nbytes },
          [Call.allocate (m.with_have_many c).max_nbytes])).2 = [Call.allocate m.max_nbytes]
    match hi : m.items with
    | [] => rfl
    | [a] => rw [hi] at hlen; exact absurd rfl hlen
    | a :: b :: rest => rfl

theorem have_many_no_influence_witness :
    ∃ s s' : World Nat,
      run MPI.advance8 even_indices 8 every_op (World.fresh 3 7 true 0 (fun a => a))
        = some s ∧
      run MPI.advance8 even_indices 8 every_op (World.fresh 3 7 false 0 (fun a => a))
        = some s' ∧
      s.calls = s'.calls ∧ s.calls.length = 11 ∧ s.mem = s'.mem ∧
      s.msg.nbytes = s'.msg.nbytes ∧ s.msg.have_many = true ∧ s'.msg.have_many = false := by
  obtain ⟨h1, h2, -, -, -, h6, -, -, -, h10, h11⟩ :=
    (have_many_no_influence MPI.advance8 even_indices 8 every_op 3 7 0 (fun a => a)
      true false).2.1 _ _ rfl rfl
  exact ⟨_, _, rfl, rfl, h2, by decide, h1, h6, h10, h11⟩

end Comb
